import Mathlib

/-!
Verification development for the `database_engine` key-value store.

The Go source is shallowly embedded: the disk store (`storage.DiskStorage`),
the backup manager (`persistence.BackupManager`) and the recovery manager
(`persistence.RecoveryManager`) become pure Lean functions over explicit
state.  Files are lists of byte values (`List Nat`, each element a byte),
the in-memory offset index is an association list standing for the Go map
(iteration order fixed to list order, one of the orders Go may produce),
and fallible operations return `Except` together with the post-state.

The Go source serializes entries and the index with `encoding/json`; JSON
encoding of these fixed structs is deterministic and round-trips, so it is
modelled here by a concrete deterministic, injective, self-delimiting byte
codec (`serializeEntry` / `deserializeEntry`, `serializeIndex` /
`deserializeIndex`).  The 4-byte little-endian record framing of the data
file and the WAL is modelled exactly (`le32` / `rdLE32`, including the
`uint32` truncation Go performs on the length).
-/

set_option maxRecDepth 100000

namespace DBEngine

/-- Little-endian bytes of `uint32(n)`: exactly what Go's
`binary.Write(f, binary.LittleEndian, uint32(len))` appends. -/
def le32 (n : Nat) : List Nat :=
  [n % 256, n / 256 % 256, n / 65536 % 256, n / 16777216 % 256]

/-- Read a little-endian `uint32` from (the first four of) the given bytes,
as `readUint32` / `binary.Read` do in the Go source. -/
def rdLE32 (bs : List Nat) : Nat :=
  match bs with
  | b0 :: b1 :: b2 :: b3 :: _ => b0 + b1 * 256 + b2 * 65536 + b3 * 16777216
  | _ => 0

theorem length_le32 (n : Nat) : (le32 n).length = 4 := rfl

theorem rdLE32_le32 (n : Nat) (h : n < 2 ^ 32) : rdLE32 (le32 n) = n := by
  simp only [le32, rdLE32]
  omega

/-- Self-delimiting encoding of a natural number used by the stand-in
serialization: a unary run of `1` bytes closed by a `0` byte.  (The Go
source serializes with JSON; any deterministic invertible encoding models
it — this one keeps every definition structurally recursive.) -/
def encNat (n : Nat) : List Nat :=
  List.replicate n 1 ++ [0]

/-- Parse `encNat`: count the leading `1` bytes up to the closing `0`. -/
def decNat : List Nat → Option (Nat × List Nat)
  | [] => none
  | b :: bs =>
    if b = 0 then some (0, bs)
    else if b = 1 then
      match decNat bs with
      | some (k, rest) => some (k + 1, rest)
      | none => none
    else none

theorem decNat_replicate (k : Nat) (tail : List Nat) :
    decNat (List.replicate k 1 ++ 0 :: tail) = some (k, tail) := by
  induction k with
  | zero => simp [decNat]
  | succ k ih => simp [List.replicate_succ, decNat, ih]

theorem decNat_encNat (n : Nat) (rest : List Nat) :
    decNat (encNat n ++ rest) = some (n, rest) := by
  have h : encNat n ++ rest = List.replicate n 1 ++ 0 :: rest := by
    simp [encNat]
  rw [h, decNat_replicate]

/-- Length-prefixed byte string. -/
def encBytes (bs : List Nat) : List Nat :=
  encNat bs.length ++ bs

def decBytes (bs : List Nat) : Option (List Nat × List Nat) :=
  match decNat bs with
  | some (n, rest) =>
    if n ≤ rest.length then some (rest.take n, rest.drop n) else none
  | none => none

theorem decBytes_encBytes (b rest : List Nat) :
    decBytes (encBytes b ++ rest) = some (b, rest) := by
  unfold decBytes encBytes
  rw [List.append_assoc, decNat_encNat]
  simp [List.take_left, List.drop_left]

/-! ## The data model (`types.go`)

`types.Key` is a Go string and `types.Value` a byte slice; both are opaque
byte strings here.  `types.Entry` carries key, value, write timestamp and an
optional TTL.  Times and durations are in nanoseconds since the epoch
(`time.Time` / `time.Duration`), modelled as naturals — the durations the
engine handles are non-negative. -/

abbrev K := List Nat

structure Entry where
  key : K
  value : List Nat
  timestamp : Nat
  ttl : Option Nat
deriving DecidableEq

/-- `Entry.IsExpired`: `time.Since(e.Timestamp) > *e.TTL` at wall-clock
`now`, `false` when no TTL is set. -/
def isExpired (now : Nat) (e : Entry) : Bool :=
  match e.ttl with
  | none => false
  | some d => decide (now - e.timestamp > d)

/-- Stand-in for `json.Marshal(entry)`: deterministic, injective,
self-delimiting. -/
def serializeEntry (e : Entry) : List Nat :=
  encBytes e.key ++ encBytes e.value ++ encNat e.timestamp ++
    (match e.ttl with
     | none => [0]
     | some d => 1 :: encNat d)

/-- Stand-in for `json.Unmarshal` into `types.Entry`; fails (like Go) unless
the whole payload is a well-formed entry. -/
def deserializeEntry (bs : List Nat) : Option Entry :=
  match decBytes bs with
  | none => none
  | some (k, r1) =>
    match decBytes r1 with
    | none => none
    | some (v, r2) =>
      match decNat r2 with
      | none => none
      | some (ts, r3) =>
        match r3 with
        | [0] => some ⟨k, v, ts, none⟩
        | 1 :: r4 =>
          match decNat r4 with
          | some (d, []) => some ⟨k, v, ts, some d⟩
          | _ => none
        | _ => none

theorem decNat_encNat_nil (n : Nat) : decNat (encNat n) = some (n, []) := by
  have h := decNat_encNat n []
  simpa using h

theorem deserializeEntry_serializeEntry (e : Entry) :
    deserializeEntry (serializeEntry e) = some e := by
  obtain ⟨k, v, ts, ttl⟩ := e
  cases ttl <;>
    simp [serializeEntry, deserializeEntry, List.append_assoc,
      decBytes_encBytes, decNat_encNat, decNat_encNat_nil]

/-- Stand-in for `json.Marshal` of the Go `map[types.Key]int64` index
(an association list of key/offset pairs). -/
def serializeIndex (m : List (K × Nat)) : List Nat :=
  encNat m.length ++ m.flatMap (fun kv => encBytes kv.1 ++ encNat kv.2)

def deserializeIndexAux : Nat → List Nat → Option (List (K × Nat))
  | 0, [] => some []
  | 0, _ :: _ => none
  | k + 1, bs =>
    match decBytes bs with
    | none => none
    | some (key, r1) =>
      match decNat r1 with
      | none => none
      | some (off, r2) => (deserializeIndexAux k r2).map (fun l => (key, off) :: l)

/-- Stand-in for `json.Unmarshal` into the index map. -/
def deserializeIndex (bs : List Nat) : Option (List (K × Nat)) :=
  match decNat bs with
  | some (n, rest) => deserializeIndexAux n rest
  | none => none

/-! ### Go map operations on the association-list index -/

def idxLookup : List (K × Nat) → K → Option Nat
  | [], _ => none
  | (k', v) :: rest, k => if k' = k then some v else idxLookup rest k

/-- `m[k] = v` on a Go map. -/
def idxSet : List (K × Nat) → K → Nat → List (K × Nat)
  | [], k, v => [(k, v)]
  | (k', v') :: rest, k, v =>
    if k' = k then (k, v) :: rest else (k', v') :: idxSet rest k v

/-- `delete(m, k)` on a Go map. -/
def idxDelete (m : List (K × Nat)) (k : K) : List (K × Nat) :=
  m.filter (fun kv => kv.1 ≠ k)

theorem idxLookup_idxSet_self (m : List (K × Nat)) (k : K) (v : Nat) :
    idxLookup (idxSet m k v) k = some v := by
  induction m with
  | nil => simp [idxSet, idxLookup]
  | cons kv rest ih =>
    by_cases h : kv.1 = k
    · simp [idxSet, h, idxLookup]
    · simp [idxSet, h, idxLookup, ih]

theorem idxLookup_idxSet_ne (m : List (K × Nat)) (k k' : K) (v : Nat)
    (h : k' ≠ k) : idxLookup (idxSet m k v) k' = idxLookup m k' := by
  have h' : ¬(k = k') := by
    intro he
    exact h he.symm
  induction m with
  | nil => simp [idxSet, idxLookup, h']
  | cons kv rest ih =>
    obtain ⟨k1, v1⟩ := kv
    by_cases hk : k1 = k
    · subst hk
      simp [idxSet, idxLookup, h']
    · simp [idxSet, idxLookup, hk, ih]

theorem idxLookup_idxDelete_self (m : List (K × Nat)) (k : K) :
    idxLookup (idxDelete m k) k = none := by
  induction m with
  | nil => simp [idxDelete, idxLookup]
  | cons kv rest ih =>
    obtain ⟨k1, v1⟩ := kv
    by_cases h : k1 = k
    · simpa [idxDelete, h] using ih
    · simpa [idxDelete, idxLookup, h] using ih

theorem idxLookup_eq_none_of_not_mem (m : List (K × Nat)) (k : K)
    (h : k ∉ m.map Prod.fst) : idxLookup m k = none := by
  induction m with
  | nil => rfl
  | cons kv rest ih =>
    obtain ⟨k1, v1⟩ := kv
    simp only [List.map_cons, List.mem_cons] at h
    push_neg at h
    have h1 : ¬(k1 = k) := by
      intro he
      exact h.1 he.symm
    simp [idxLookup, h1, ih h.2]

theorem idxLookup_mem (m : List (K × Nat)) (k : K) (off : Nat)
    (h : idxLookup m k = some off) : (k, off) ∈ m := by
  induction m with
  | nil => simp [idxLookup] at h
  | cons kv rest ih =>
    obtain ⟨k1, v1⟩ := kv
    by_cases hk : k1 = k
    · subst hk
      simp only [idxLookup, if_true, eq_self_iff_true, Option.some.injEq] at h
      subst h
      exact List.mem_cons_self _ _
    · simp only [idxLookup, hk, if_false] at h
      exact List.mem_cons_of_mem _ (ih h)

theorem mem_idxLookup (m : List (K × Nat)) (k : K) (off : Nat)
    (hnd : (m.map Prod.fst).Nodup) (h : (k, off) ∈ m) :
    idxLookup m k = some off := by
  induction m with
  | nil => simp at h
  | cons kv rest ih =>
    obtain ⟨k1, v1⟩ := kv
    simp only [List.map_cons, List.nodup_cons] at hnd
    rcases List.mem_cons.mp h with h1 | h2
    · rw [Prod.mk.injEq] at h1
      obtain ⟨he1, he2⟩ := h1
      simp [idxLookup, he1, he2]
    · have hk : ¬(k1 = k) := by
        intro he
        exact hnd.1 (he ▸ (List.mem_map.mpr ⟨(k, off), h2, rfl⟩))
      simp [idxLookup, hk, ih hnd.2 h2]

/-! ## The disk store (`storage.DiskStorage`)

State: in-memory index (Go map key → offset), the bytes of `data.db`, the
bytes of `index.db`, the in-memory `nextOffset`, and the `closed` flag.
Error values mirror the `types` error variables plus the two kinds of
failure the store surfaces from below: `io` for operating-system errors
(including reads/stats on a closed file handle) and `malformed` for
deserialization failures.  `goPanic` models a Go runtime panic. -/

inductive GoErr
  | notFound
  | expired
  | closed
  | io
  | malformed
  | corrupt
  | goPanic
deriving DecidableEq

instance exceptDecEq {ε α : Type} [DecidableEq ε] [DecidableEq α] :
    DecidableEq (Except ε α) := fun a b =>
  match a, b with
  | .ok x, .ok y =>
    if h : x = y then .isTrue (by rw [h])
    else .isFalse (by intro he; cases he; exact h rfl)
  | .ok _, .error _ => .isFalse (by intro he; cases he)
  | .error _, .ok _ => .isFalse (by intro he; cases he)
  | .error x, .error y =>
    if h : x = y then .isTrue (by rw [h])
    else .isFalse (by intro he; cases he; exact h rfl)

structure DiskState where
  index : List (K × Nat)
  dataFile : List Nat
  indexFile : List Nat
  nextOffset : Nat
  closed : Bool
deriving DecidableEq

/-- Outcome of the OS-level writes a single `writeEntry` performs: both
succeed, the 4-byte header write fails (nothing appended), or the payload
write fails (header already appended). -/
inductive WriteOutcome
  | ok
  | failHeader
  | failPayload
deriving DecidableEq

/-- `saveIndex`: truncate `index.db` and rewrite it from the in-memory map
(Go re-marshals the whole map as JSON). -/
def saveIndex (s : DiskState) : DiskState :=
  { s with indexFile := serializeIndex s.index }

/-- `writeEntry`: append 4-byte little-endian length header then the
serialized payload; on success return the offset captured from `nextOffset`
before the write and advance `nextOffset` by `4 + len`.  Go truncates the
header value to `uint32`, which `le32` reproduces. -/
def writeEntry (s : DiskState) (e : Entry) (w : WriteOutcome) :
    Except GoErr Nat × DiskState :=
  let payload := serializeEntry e
  match w with
  | .failHeader => (.error .io, s)
  | .failPayload => (.error .io, { s with dataFile := s.dataFile ++ le32 payload.length })
  | .ok =>
    (.ok s.nextOffset,
      { s with
        dataFile := s.dataFile ++ le32 payload.length ++ payload,
        nextOffset := s.nextOffset + (4 + payload.length) })

/-- Read one framed record out of a byte file: 4-byte header, that many
payload bytes, deserialize.  A short read is an OS error (`io`), a payload
that does not parse is `malformed`. -/
def readEntryBytes (file : List Nat) (off : Nat) : Except GoErr Entry :=
  let rest := file.drop off
  if rest.length < 4 then .error .io
  else
    let len := rdLE32 (rest.take 4)
    let body := (rest.drop 4).take len
    if (rest.drop 4).length < len then .error .io
    else
      match deserializeEntry body with
      | some e => .ok e
      | none => .error .malformed

/-- `readEntry`: reading through a closed file handle fails with an OS
error (the Go method does not itself check `closed`). -/
def readEntry (s : DiskState) (off : Nat) : Except GoErr Entry :=
  if s.closed then .error .io else readEntryBytes s.dataFile off

/-- `Get`: index lookup, read, lazy-expiry check; an expired entry is
pruned from the index and the index is persisted (the `saveIndex` error is
discarded, as in the source) before reporting `expired`. -/
def Get (s : DiskState) (now : Nat) (k : K) :
    Except GoErr (List Nat) × DiskState :=
  if s.closed then (.error .closed, s)
  else
    match idxLookup s.index k with
    | none => (.error .notFound, s)
    | some off =>
      match readEntry s off with
      | .error e => (.error e, s)
      | .ok entry =>
        if isExpired now entry then
          (.error .expired, saveIndex { s with index := idxDelete s.index k })
        else (.ok entry.value, s)

/-- `Set`: append a record stamped `now` with no TTL, update the index,
persist the index. -/
def Set (s : DiskState) (now : Nat) (k : K) (v : List Nat)
    (w : WriteOutcome) : Except GoErr Unit × DiskState :=
  if s.closed then (.error .closed, s)
  else
    match writeEntry s ⟨k, v, now, none⟩ w with
    | (.error err, s') => (.error err, s')
    | (.ok off, s') => (.ok (), saveIndex { s' with index := idxSet s'.index k off })

/-- `SetWithTTL`. -/
def SetWithTTL (s : DiskState) (now : Nat) (k : K) (v : List Nat) (ttl : Nat)
    (w : WriteOutcome) : Except GoErr Unit × DiskState :=
  if s.closed then (.error .closed, s)
  else
    match writeEntry s ⟨k, v, now, some ttl⟩ w with
    | (.error err, s') => (.error err, s')
    | (.ok off, s') => (.ok (), saveIndex { s' with index := idxSet s'.index k off })

/-- `Delete`: remove the index entry (idempotent) and persist. -/
def Delete (s : DiskState) (k : K) : Except GoErr Unit × DiskState :=
  if s.closed then (.error .closed, s)
  else (.ok (), saveIndex { s with index := idxDelete s.index k })

/-- `Exists` (named `ExistsKey` because `Exists` is Lean's existential):
as `Get` but expired/missing yield `false`, and the expired branch does
*not* touch the index. -/
def ExistsKey (s : DiskState) (now : Nat) (k : K) :
    Except GoErr Bool × DiskState :=
  if s.closed then (.error .closed, s)
  else
    match idxLookup s.index k with
    | none => (.ok false, s)
    | some off =>
      match readEntry s off with
      | .error e => (.error e, s)
      | .ok entry => (.ok (!isExpired now entry), s)

/-- `BatchGet`: per-key misses (absent, unreadable, expired) are skipped. -/
def BatchGet (s : DiskState) (now : Nat) (ks : List K) :
    Except GoErr (List (K × List Nat)) :=
  if s.closed then .error .closed
  else
    .ok (ks.filterMap (fun k =>
      match idxLookup s.index k with
      | none => none
      | some off =>
        match readEntry s off with
        | .ok e => if isExpired now e then none else some (k, e.value)
        | .error _ => none))

/-- The `BatchSet` loop: write each entry (stamping zero timestamps with
`now`), update the in-memory index, stop at the first write error.  The
`wo` oracle gives the OS outcome of the i-th entry's write. -/
def batchLoop (now : Nat) (wo : Nat → WriteOutcome) :
    List Entry → Nat → DiskState → Except GoErr Unit × DiskState
  | [], _, s => (.ok (), s)
  | e :: rest, i, s =>
    let e' := if e.timestamp = 0 then { e with timestamp := now } else e
    match writeEntry s e' (wo i) with
    | (.ok off, s') => batchLoop now wo rest (i + 1) { s' with index := idxSet s'.index e'.key off }
    | (.error err, s') => (.error err, s')

/-- `BatchSet`: run the loop, then persist the index once — only when every
write succeeded. -/
def BatchSet (s : DiskState) (now : Nat) (entries : List Entry)
    (wo : Nat → WriteOutcome) : Except GoErr Unit × DiskState :=
  if s.closed then (.error .closed, s)
  else
    match batchLoop now wo entries 0 s with
    | (.ok _, s') => (.ok (), saveIndex s')
    | (.error err, s') => (.error err, s')

/-- `BatchDelete`: delete each key, persist once. -/
def BatchDelete (s : DiskState) (ks : List K) : Except GoErr Unit × DiskState :=
  if s.closed then (.error .closed, s)
  else (.ok (), saveIndex { s with index := ks.foldl (fun m k => idxDelete m k) s.index })

/-- `Clear`: empty index, `nextOffset := 0`, truncate `data.db`, persist. -/
def Clear (s : DiskState) : Except GoErr Unit × DiskState :=
  if s.closed then (.error .closed, s)
  else (.ok (), saveIndex { s with index := [], dataFile := [], nextOffset := 0 })

/-- The list `Keys` returns on an open store: keys whose record reads back
and is not expired. -/
def keysOf (s : DiskState) (now : Nat) : List K :=
  (s.index.filter (fun kv =>
    match readEntry s kv.2 with
    | .ok e => !isExpired now e
    | .error _ => false)).map Prod.fst

/-- `Keys`. -/
def Keys (s : DiskState) (now : Nat) : Except GoErr (List K) :=
  if s.closed then .error .closed else .ok (keysOf s now)

/-- `Size`: count of live, non-expired entries. -/
def Size (s : DiskState) (now : Nat) : Except GoErr Nat :=
  if s.closed then .error .closed else .ok (keysOf s now).length

/-- `CleanupExpired`: drop every index entry whose record reads back
expired; persist only when something was dropped.  The Go method checks
neither `closed` nor any error — on a closed store every read fails, so it
counts nothing.  It returns only the count. -/
def CleanupExpired (s : DiskState) (now : Nat) : Nat × DiskState :=
  let expiredHere := fun (kv : K × Nat) =>
    match readEntry s kv.2 with
    | .ok e => isExpired now e
    | .error _ => false
  let count := (s.index.filter expiredHere).length
  if count > 0 then
    (count, saveIndex { s with index := s.index.filter (fun kv => !expiredHere kv) })
  else (count, s)

/-- `GetDiskUsage`: data-file size plus index-file size.  No `closed`
check; `Stat` on a closed handle fails with an OS error. -/
def GetDiskUsage (s : DiskState) : Except GoErr Nat :=
  if s.closed then .error .io
  else .ok (s.dataFile.length + s.indexFile.length)

/-- The `Compact` copy loop over the index: re-append each readable,
non-expired record to the temp data file, recording fresh offsets. -/
def compactLoop (s : DiskState) (now : Nat) :
    List (K × Nat) → List Nat → List (K × Nat) → Nat →
      List Nat × List (K × Nat) × Nat
  | [], td, ni, no => (td, ni, no)
  | (k, off) :: rest, td, ni, no =>
    match readEntry s off with
    | .ok e =>
      if isExpired now e then compactLoop s now rest td ni no
      else
        compactLoop s now rest
          (td ++ le32 (serializeEntry e).length ++ serializeEntry e)
          (idxSet ni k no)
          (no + (4 + (serializeEntry e).length))
    | .error _ => compactLoop s now rest td ni no

/-- `Compact`: rebuild data file and index from the live records, atomically
replace the files, swap in the fresh in-memory index, and set `nextOffset`
to the new data-file length. -/
def Compact (s : DiskState) (now : Nat) : Except GoErr Unit × DiskState :=
  if s.closed then (.error .closed, s)
  else
    let r := compactLoop s now s.index [] [] 0
    (.ok (),
      { index := r.2.1, dataFile := r.1, indexFile := serializeIndex r.2.1,
        nextOffset := r.2.2, closed := false })

/-- `NewDiskStorage` + `loadIndex`: an empty (zero-byte) index file returns
early with `nextOffset = 0`; otherwise the index is decoded (a decode
failure aborts construction) and `nextOffset` is set to the data file's
size. -/
def openStore (dataBytes indexBytes : List Nat) : Except GoErr DiskState :=
  if indexBytes.length = 0 then
    .ok { index := [], dataFile := dataBytes, indexFile := indexBytes,
          nextOffset := 0, closed := false }
  else
    match deserializeIndex indexBytes with
    | none => .error .malformed
    | some m =>
      .ok { index := m, dataFile := dataBytes, indexFile := indexBytes,
            nextOffset := dataBytes.length, closed := false }

/-- `Close` (idempotent). -/
def Close (s : DiskState) : Except GoErr Unit × DiskState :=
  if s.closed then (.ok (), s) else (.ok (), { s with closed := true })

/-- The entries `Compact` keeps out of a given run of index pairs:
readable and not expired, in iteration order. -/
def survivorsOf (s : DiskState) (now : Nat) (l : List (K × Nat)) : List Entry :=
  l.filterMap (fun kv =>
    match readEntry s kv.2 with
    | .ok e => if isExpired now e then none else some e
    | .error _ => none)

/-- The entries `Compact` keeps, over the whole index. -/
def survivorEntries (s : DiskState) (now : Nat) : List Entry :=
  survivorsOf s now s.index

/-! ## The backup manager (`persistence.BackupManager`)

A backup directory is its decoded manifest (`metadata.json`; `none` when
absent or undecodable) together with the other files as name/bytes pairs.
The data directory's three store files are a `SourceDir` (`none` = the file
is absent). -/

structure BackupMetadata where
  timestamp : Nat
  version : String
  entryCount : Nat
  dataSize : Nat
  indexSize : Nat
  walSize : Nat
  checksum : String
  backupType : String
  description : String
deriving DecidableEq

structure SourceDir where
  data : Option (List Nat)
  index : Option (List Nat)
  wal : Option (List Nat)
deriving DecidableEq

structure BackupDir where
  manifest : Option BackupMetadata
  dataFiles : List (String × List Nat)
deriving DecidableEq

/-- `fmt.Sprintf("%x", n)` for a non-negative value: lowercase base-16
digits, no padding (`Nat.toDigits 16` produces exactly these). -/
def natToHex (n : Nat) : String :=
  String.mk (Nat.toDigits 16 n)

/-- The accumulator of `calculateChecksum`'s `filepath.Walk`: the sizes of
every file except `metadata.json`, summed. -/
def checksumSum (files : List (String × List Nat)) : Nat :=
  ((files.filter (fun f => f.1 ≠ "metadata.json")).map
    (fun f => f.2.length)).sum

/-- `calculateChecksum`: walk the backup directory and *sum the sizes* of
every file except `metadata.json`, rendering the sum in hex.  (The comment
in the source itself flags this as a placeholder for a real hash.) -/
def calculateChecksum (files : List (String × List Nat)) : String :=
  natToHex (checksumSum files)

/-- `countEntriesFromIndex`: open the copied index file and count the keys
of the decoded map — every key, with no expiry or readability check. -/
def countEntriesFromIndex (indexBytes : List Nat) : Except GoErr Nat :=
  match deserializeIndex indexBytes with
  | some m => .ok m.length
  | none => .error .malformed

def fileLookup (fs : List (String × List Nat)) (name : String) :
    Option (List Nat) :=
  (fs.find? (fun f => f.1 = name)).map (fun f => f.2)

/-- `CreateFullBackup`: copy whichever of `data.db`/`index.db`/`wal.log`
exist, total their sizes, count entries from the copied index (0 on
absence or decode failure), checksum the copied files (the manifest is not
yet written), then write the manifest. -/
def createFullBackup (src : SourceDir) (desc : String) (ts : Nat) :
    BackupDir × BackupMetadata :=
  let copied :=
    ([("data.db", src.data), ("index.db", src.index), ("wal.log", src.wal)] :
      List (String × Option (List Nat))).filterMap
      (fun f => f.2.map (fun c => (f.1, c)))
  let totalSize := (copied.map (fun f => f.2.length)).sum
  let entryCount :=
    match fileLookup copied "index.db" with
    | some ib =>
      match countEntriesFromIndex ib with
      | .ok n => n
      | .error _ => 0
    | none => 0
  let md : BackupMetadata :=
    { timestamp := ts, version := "1.0.0", entryCount := entryCount,
      dataSize := totalSize, indexSize := 0, walSize := 0,
      checksum := calculateChecksum copied, backupType := "full",
      description := desc }
  (⟨some md, copied⟩, md)

/-- `verifyBackupIntegrity`: recompute the checksum and compare with the
manifest's, then require `metadata.json` to exist; both failures are the
`Corrupt` outcome. -/
def verifyBackupIntegrity (d : BackupDir) (m : BackupMetadata) :
    Except GoErr Unit :=
  if calculateChecksum d.dataFiles ≠ m.checksum then .error .corrupt
  else if d.manifest.isNone then .error .corrupt
  else .ok ()

/-- `RestoreFromBackup` on an existing backup directory: load the manifest
(an OS/decode failure if absent), verify integrity, then overwrite each of
the three live files with the backup's copy — a file missing from the
backup *removes* the live counterpart.  (The temporary holding copy of the
current data only matters on copy failures, which are not modelled.) -/
def RestoreFromBackup (d : BackupDir) (_live : SourceDir) :
    Except GoErr SourceDir :=
  match d.manifest with
  | none => .error .io
  | some m =>
    match verifyBackupIntegrity d m with
    | .error e => .error e
    | .ok _ =>
      .ok { data := fileLookup d.dataFiles "data.db",
            index := fileLookup d.dataFiles "index.db",
            wal := fileLookup d.dataFiles "wal.log" }

/-- Replace byte `j` of the `i`-th file of a backup directory's non-manifest
files with `b` (out-of-range indices leave the directory unchanged). -/
def flipByte : List (String × List Nat) → Nat → Nat → Nat →
    List (String × List Nat)
  | [], _, _, _ => []
  | f :: rest, 0, j, b => (f.1, f.2.set j b) :: rest
  | f :: rest, i + 1, j, b => f :: flipByte rest i j b

/-- A backup directory with one byte of one non-manifest file replaced. -/
def flipDir (d : BackupDir) (i j b : Nat) : BackupDir :=
  { d with dataFiles := flipByte d.dataFiles i j b }

/-- `ListBackups` directory entry: name, directory flag, and the decoded
manifest inside it (`none` = unreadable or absent). -/
structure DirEntry where
  name : String
  isDir : Bool
  manifest : Option BackupMetadata
deriving DecidableEq

/-- The `ListBackups` scan.  `entry.Name()[:7] == "backup_"` slices the
name before comparing; in Go that slice panics ("slice bounds out of
range") on a directory whose name is shorter than 7 bytes, modelled by the
`goPanic` outcome. -/
def listBackupsLoop : List DirEntry → List BackupMetadata →
    Except GoErr (List BackupMetadata)
  | [], acc => .ok acc
  | e :: rest, acc =>
    if e.isDir then
      if e.name.length < 7 then .error .goPanic
      else if e.name.take 7 = "backup_" then
        match e.manifest with
        | some m => listBackupsLoop rest (acc ++ [m])
        | none => listBackupsLoop rest acc
      else listBackupsLoop rest acc
    else listBackupsLoop rest acc

/-- `ListBackups` over a directory listing. -/
def ListBackups (entries : List DirEntry) : Except GoErr (List BackupMetadata) :=
  listBackupsLoop entries []

/-! ## The recovery manager (`persistence.RecoveryManager`) -/

/-- `tryWALRecovery`: succeed iff `wal.log` exists and its first 4 bytes (a
length header) can be read — the payload those 4 bytes announce is never
read at this layer. -/
def tryWALRecovery (wal : Option (List Nat)) : Bool :=
  match wal with
  | none => false
  | some bs => decide (4 ≤ bs.length)

/-- Spec-side definition, following the spec's words: the WAL holds at
least one *complete* length-framed record — a 4-byte little-endian length
header followed by that many payload bytes. -/
def specHasCompleteRecord (bs : List Nat) : Bool :=
  decide (4 ≤ bs.length) && decide (4 + rdLE32 (bs.take 4) ≤ bs.length)

/-- Spec-side definition: the number of live entries recorded in a backup's
copied index file — keys of the decoded index whose record in the copied
data file reads back and is not expired at `now`. -/
def specLiveEntryCount (d : BackupDir) (now : Nat) : Nat :=
  match fileLookup d.dataFiles "index.db" with
  | none => 0
  | some ib =>
    match deserializeIndex ib with
    | none => 0
    | some m =>
      (m.filter (fun kv =>
        match readEntryBytes ((fileLookup d.dataFiles "data.db").getD []) kv.2 with
        | .ok e => !isExpired now e
        | .error _ => false)).length

/-! ## Framing lemmas for the data file -/

/-- Reading at the start of a framed record inside a file returns the
record's parse, whatever precedes or follows it, provided the payload
length survives the `uint32` header. -/
theorem readEntryBytes_at_frame (pre p rest2 : List Nat)
    (h : p.length < 2 ^ 32) :
    readEntryBytes (pre ++ le32 p.length ++ p ++ rest2) pre.length =
      match deserializeEntry p with
      | some e => .ok e
      | none => .error .malformed := by
  have hdrop : (pre ++ le32 p.length ++ p ++ rest2).drop pre.length
      = le32 p.length ++ (p ++ rest2) := by
    rw [List.append_assoc, List.append_assoc, List.drop_left]
  have hlen4 : (le32 p.length).length = 4 := length_le32 _
  unfold readEntryBytes
  rw [hdrop]
  have hL : (le32 p.length ++ (p ++ rest2)).length = 4 + (p.length + rest2.length) := by
    simp [hlen4]
  rw [if_neg (by omega)]
  have htake : (le32 p.length ++ (p ++ rest2)).take 4 = le32 p.length :=
    List.take_left' hlen4
  have hdrop4 : (le32 p.length ++ (p ++ rest2)).drop 4 = p ++ rest2 :=
    List.drop_left' hlen4
  rw [htake, hdrop4, rdLE32_le32 _ h]
  have htakep : (p ++ rest2).take p.length = p := List.take_left' rfl
  rw [if_neg (by simp), htakep]

/-- Specialization: reading a freshly appended record at the old end of
file. -/
theorem readEntryBytes_append (pre : List Nat) (e : Entry)
    (h : (serializeEntry e).length < 2 ^ 32) :
    readEntryBytes (pre ++ le32 (serializeEntry e).length ++ serializeEntry e)
      pre.length = .ok e := by
  have h0 := readEntryBytes_at_frame pre (serializeEntry e) [] h
  rw [List.append_nil] at h0
  rw [h0, deserializeEntry_serializeEntry]

/-- Reading a framed record followed by more bytes. -/
theorem readEntryBytes_frame_entry (pre : List Nat) (e : Entry) (rest2 : List Nat)
    (h : (serializeEntry e).length < 2 ^ 32) :
    readEntryBytes (pre ++ le32 (serializeEntry e).length ++ serializeEntry e ++ rest2)
      pre.length = .ok e := by
  rw [readEntryBytes_at_frame _ _ _ h, deserializeEntry_serializeEntry]

/-! ## Claims -/

/-- **C6** (counterexample): a WAL file consisting of exactly the four
header bytes `[10,0,0,0]` — announcing a 10-byte payload that is absent —
makes `tryWALRecovery` report success even though no complete length-framed
record can be read from it. -/
theorem C6_counterexample :
    tryWALRecovery (some [10, 0, 0, 0]) = true ∧
    specHasCompleteRecord [10, 0, 0, 0] = false := by decide

/-- **C6** (amended): the WAL-recovery sub-path reports success iff
`wal.log` exists and at least a complete 4-byte length header can be read
from it; the payload bytes the header announces are not checked. -/
theorem C6_wal_probe_reads_header_only (w : Option (List Nat)) :
    tryWALRecovery w = true ↔ ∃ bs, w = some bs ∧ 4 ≤ bs.length := by
  cases w with
  | none => simp [tryWALRecovery]
  | some bs => simp [tryWALRecovery]

def c7Manifest : BackupMetadata :=
  ⟨0, "1.0.0", 0, 0, 0, 0, "0", "full", ""⟩

/-- **C7**: `ListBackups` does read one manifest per readable
`backup_`-prefixed directory, but on a directory entry whose name is
shorter than 7 bytes the slice `entry.Name()[:7]` panics instead of
skipping the entry. -/
theorem C7_short_dirname_panics :
    ListBackups [⟨"backup_20240101_000000", true, some c7Manifest⟩] = .ok [c7Manifest] ∧
    ListBackups [⟨"backup_20240101_000000", false, some c7Manifest⟩] = .ok [] ∧
    ListBackups [⟨"x", true, none⟩] = .error .goPanic := by decide

def c10Entry : Entry := ⟨[107], [1], 0, some 0⟩

def c10State : DiskState :=
  { index := [([107], 0)],
    dataFile := le32 (serializeEntry c10Entry).length ++ serializeEntry c10Entry,
    indexFile := serializeIndex [([107], 0)],
    nextOffset := (le32 (serializeEntry c10Entry).length ++ serializeEntry c10Entry).length,
    closed := false }

/-- **C10**: on a key whose indexed record is expired, `Exists` returns
`false` and leaves the state untouched — no index entry is removed and the
index file is not rewritten — whereas `Get` prunes the entry and persists
the index. -/
theorem C10_exists_expired_is_pure (s : DiskState) (now : Nat) (k : K)
    (off : Nat) (e : Entry)
    (hc : s.closed = false)
    (hl : idxLookup s.index k = some off)
    (hr : readEntry s off = .ok e)
    (he : isExpired now e = true) :
    ExistsKey s now k = (.ok false, s) ∧
    (Get s now k).1 = .error .expired ∧
    (Get s now k).2.index = idxDelete s.index k ∧
    (Get s now k).2.indexFile = serializeIndex (idxDelete s.index k) := by
  unfold ExistsKey Get
  simp [hc, hl, hr, he, saveIndex]

/-- Witness for C10 at a concrete store holding one expired record. -/
theorem C10_exists_expired_is_pure_w :
    (c10State.closed = false ∧ idxLookup c10State.index [107] = some 0 ∧
      readEntry c10State 0 = .ok c10Entry ∧ isExpired 5 c10Entry = true) ∧
    (ExistsKey c10State 5 [107] = (.ok false, c10State) ∧
      (Get c10State 5 [107]).1 = .error .expired ∧
      (Get c10State 5 [107]).2.index = idxDelete c10State.index [107] ∧
      (Get c10State 5 [107]).2.indexFile = serializeIndex (idxDelete c10State.index [107])) :=
  ⟨⟨rfl, by decide, by decide, by decide⟩,
    C10_exists_expired_is_pure c10State 5 [107] 0 c10Entry rfl (by decide)
      (by decide) (by decide)⟩

def c5Closed : DiskState :=
  { index := [], dataFile := [], indexFile := [], nextOffset := 0, closed := true }

/-- **C5** (counterexample): on a closed store, `CleanupExpired` does not
fail with `Closed` — it has no error result at all and returns count `0` —
and `GetDiskUsage` fails with the OS error from the closed file handles,
not with `Closed`. -/
theorem C5_counterexample :
    CleanupExpired c5Closed 0 = (0, c5Closed) ∧
    GetDiskUsage c5Closed = .error .io ∧
    GetDiskUsage c5Closed ≠ .error .closed := by decide

theorem cleanupExpired_closed (s : DiskState) (now : Nat)
    (hc : s.closed = true) : CleanupExpired s now = (0, s) := by
  unfold CleanupExpired
  have hfilter : s.index.filter (fun kv =>
      match readEntry s kv.2 with
      | .ok e => isExpired now e
      | .error _ => false) = [] := by
    rw [List.filter_eq_nil_iff]
    intro kv _
    simp [readEntry, hc]
  simp [hfilter]

/-- **C5** (amended): after `close()`, every public operation *except*
`cleanup_expired` and `disk_usage` fails with `Closed`; `cleanup_expired`
(which has no error channel and checks nothing) returns `0` leaving the
state untouched, and `disk_usage` fails with an `Io` error from the closed
handles. -/
theorem C5_closed_ops (s : DiskState) (now : Nat) (k : K) (v : List Nat)
    (d : Nat) (entries : List Entry) (ks : List K) (w : WriteOutcome)
    (wo : Nat → WriteOutcome) (hc : s.closed = true) :
    (Get s now k).1 = .error .closed ∧
    (Set s now k v w).1 = .error .closed ∧
    (SetWithTTL s now k v d w).1 = .error .closed ∧
    (Delete s k).1 = .error .closed ∧
    (ExistsKey s now k).1 = .error .closed ∧
    BatchGet s now ks = .error .closed ∧
    (BatchSet s now entries wo).1 = .error .closed ∧
    (BatchDelete s ks).1 = .error .closed ∧
    (Clear s).1 = .error .closed ∧
    Size s now = .error .closed ∧
    Keys s now = .error .closed ∧
    (Compact s now).1 = .error .closed ∧
    CleanupExpired s now = (0, s) ∧
    GetDiskUsage s = .error .io := by
  refine ⟨?_, ?_, ?_, ?_, ?_, ?_, ?_, ?_, ?_, ?_, ?_, ?_, ?_, ?_⟩ <;>
    first
      | exact cleanupExpired_closed s now hc
      | simp [Get, Set, SetWithTTL, Delete, ExistsKey, BatchGet, BatchSet,
          BatchDelete, Clear, Size, Keys, Compact, GetDiskUsage, hc]

def woAllOk : Nat → WriteOutcome := fun _ => .ok

/-- Witness for the amended C5 at a concrete closed store. -/
theorem C5_closed_ops_w :
    c5Closed.closed = true ∧
    ((Get c5Closed 0 []).1 = .error .closed ∧
      (Set c5Closed 0 [] [] .ok).1 = .error .closed ∧
      (SetWithTTL c5Closed 0 [] [] 0 .ok).1 = .error .closed ∧
      (Delete c5Closed []).1 = .error .closed ∧
      (ExistsKey c5Closed 0 []).1 = .error .closed ∧
      BatchGet c5Closed 0 [] = .error .closed ∧
      (BatchSet c5Closed 0 [] woAllOk).1 = .error .closed ∧
      (BatchDelete c5Closed []).1 = .error .closed ∧
      (Clear c5Closed).1 = .error .closed ∧
      Size c5Closed 0 = .error .closed ∧
      Keys c5Closed 0 = .error .closed ∧
      (Compact c5Closed 0).1 = .error .closed ∧
      CleanupExpired c5Closed 0 = (0, c5Closed) ∧
      GetDiskUsage c5Closed = .error .io) :=
  ⟨rfl, C5_closed_ops c5Closed 0 [] [] 0 [] [] .ok woAllOk rfl⟩

/-! ### C2: mid-batch write failure skips the index persist -/

theorem batchLoop_indexFile (now : Nat) (wo : Nat → WriteOutcome) :
    ∀ (l : List Entry) (i : Nat) (s : DiskState),
      ((batchLoop now wo l i s).2).indexFile = s.indexFile := by
  intro l
  induction l with
  | nil => intro i s; rfl
  | cons e rest ih =>
    intro i s
    unfold batchLoop
    cases hwo : wo i <;> simp [writeEntry, hwo, ih]

theorem batchLoop_fails (now : Nat) (wo : Nat → WriteOutcome) :
    ∀ (l : List Entry) (i : Nat) (s : DiskState),
      (∃ j, j < l.length ∧ wo (i + j) ≠ .ok) →
      (batchLoop now wo l i s).1 = .error .io := by
  intro l
  induction l with
  | nil =>
    intro i s h
    obtain ⟨j, hj, _⟩ := h
    simp at hj
  | cons e rest ih =>
    intro i s h
    unfold batchLoop
    cases hwo : wo i with
    | ok =>
      simp only [writeEntry]
      apply ih
      obtain ⟨j, hj, hne⟩ := h
      cases j with
      | zero =>
        rw [Nat.add_zero] at hne
        exact absurd hwo hne
      | succ j' =>
        refine ⟨j', ?_, ?_⟩
        · simpa using hj
        · have harith : i + 1 + j' = i + (j' + 1) := by omega
          rw [harith]
          exact hne
    | failHeader => simp [writeEntry, hwo]
    | failPayload => simp [writeEntry, hwo]

/-- **C2**: if any entry's record write fails mid-batch, `BatchSet` returns
that failure and the on-disk index file is left exactly as it was — the
one index persist at the end of the batch is skipped. -/
theorem C2_batch_failure_skips_persist (s : DiskState) (now : Nat)
    (entries : List Entry) (wo : Nat → WriteOutcome)
    (hc : s.closed = false)
    (hfail : ∃ j, j < entries.length ∧ wo j ≠ .ok) :
    (BatchSet s now entries wo).1 = .error .io ∧
    (BatchSet s now entries wo).2.indexFile = s.indexFile := by
  have h1 : (batchLoop now wo entries 0 s).1 = .error .io := by
    apply batchLoop_fails
    simpa using hfail
  have h2 := batchLoop_indexFile now wo entries 0 s
  unfold BatchSet
  rw [hc]
  cases hbl : batchLoop now wo entries 0 s with
  | mk r s' =>
    rw [hbl] at h1 h2
    simp at h1
    subst h1
    simpa using h2

def c2Entry : Entry := ⟨[107], [1], 0, none⟩

def c2Open : DiskState :=
  { index := [], dataFile := [], indexFile := serializeIndex [],
    nextOffset := 0, closed := false }

def woFailFirst : Nat → WriteOutcome := fun _ => .failHeader

/-- Witness for C2: a one-entry batch whose write fails leaves the index
file untouched and surfaces the failure. -/
theorem C2_batch_failure_skips_persist_w :
    (c2Open.closed = false ∧ ∃ j, j < ([c2Entry] : List Entry).length ∧ woFailFirst j ≠ .ok) ∧
    ((BatchSet c2Open 0 [c2Entry] woFailFirst).1 = .error .io ∧
      (BatchSet c2Open 0 [c2Entry] woFailFirst).2.indexFile = c2Open.indexFile) :=
  ⟨⟨rfl, ⟨0, by decide, by decide⟩⟩,
    C2_batch_failure_skips_persist c2Open 0 [c2Entry] woFailFirst rfl
      ⟨0, by decide, by decide⟩⟩

/-! ### C1: byte flips are invisible to the additive size checksum -/

theorem checksumSum_cons (f : String × List Nat) (l : List (String × List Nat)) :
    checksumSum (f :: l) =
      (if f.1 = "metadata.json" then 0 else f.2.length) + checksumSum l := by
  by_cases hm : f.1 = "metadata.json" <;> simp [checksumSum, List.filter_cons, hm]

theorem checksumSum_flipByte (j b : Nat) :
    ∀ (fs : List (String × List Nat)) (i : Nat),
      checksumSum (flipByte fs i j b) = checksumSum fs := by
  intro fs
  induction fs with
  | nil => intro i; cases i <;> rfl
  | cons f rest ih =>
    intro i
    cases i with
    | zero =>
      show checksumSum ((f.1, f.2.set j b) :: rest) = checksumSum (f :: rest)
      rw [checksumSum_cons, checksumSum_cons]
      simp [List.length_set]
    | succ i' =>
      show checksumSum (f :: flipByte rest i' j b) = checksumSum (f :: rest)
      rw [checksumSum_cons, checksumSum_cons, ih i']

/-- **C1** (counterexample): a backup of a one-byte `data.db` whose byte is
then flipped from `0` to `9` restores successfully — the recomputed
checksum only depends on file sizes, so the integrity check does not
reject the flipped backup with `Corrupt`. -/
theorem C1_counterexample :
    (createFullBackup ⟨some [0], none, none⟩ "" 0).1.dataFiles = [("data.db", [0])] ∧
    (flipDir (createFullBackup ⟨some [0], none, none⟩ "" 0).1 0 0 9).dataFiles
      = [("data.db", [9])] ∧
    RestoreFromBackup (flipDir (createFullBackup ⟨some [0], none, none⟩ "" 0).1 0 0 9)
      ⟨none, none, none⟩ = .ok ⟨some [9], none, none⟩ := by decide

/-- **C1** (amended): flipping any single byte of any non-manifest file of
a backup created by `CreateFullBackup` leaves the additive size checksum —
and hence the integrity verdict — unchanged, so `RestoreFromBackup`
succeeds on the flipped backup instead of failing `Corrupt`; only
corruption that changes the total size of the non-manifest files is
detected. -/
theorem C1_flip_invisible_to_checksum (src : SourceDir) (desc : String)
    (ts i j b : Nat) (live : SourceDir) :
    calculateChecksum (flipDir (createFullBackup src desc ts).1 i j b).dataFiles
      = (createFullBackup src desc ts).2.checksum ∧
    (RestoreFromBackup (flipDir (createFullBackup src desc ts).1 i j b) live).isOk
      = true := by
  have hsum : checksumSum (flipDir (createFullBackup src desc ts).1 i j b).dataFiles
      = checksumSum (createFullBackup src desc ts).1.dataFiles :=
    checksumSum_flipByte j b _ i
  have hchk : calculateChecksum (flipDir (createFullBackup src desc ts).1 i j b).dataFiles
      = (createFullBackup src desc ts).2.checksum := by
    rw [calculateChecksum, hsum]
    rfl
  refine ⟨hchk, ?_⟩
  have hman : (flipDir (createFullBackup src desc ts).1 i j b).manifest
      = some (createFullBackup src desc ts).2 := rfl
  have hver : verifyBackupIntegrity (flipDir (createFullBackup src desc ts).1 i j b)
      (createFullBackup src desc ts).2 = .ok () := by
    unfold verifyBackupIntegrity
    rw [if_neg (not_not.mpr hchk), if_neg (by simp [hman])]
  simp only [RestoreFromBackup, hman, hver]
  rfl

/-! ### C8: the manifest entry count ignores expiry -/

def c8Entry : Entry := ⟨[107], [1], 0, some 0⟩

def c8Src : SourceDir :=
  ⟨some (le32 (serializeEntry c8Entry).length ++ serializeEntry c8Entry),
    some (serializeIndex [([107], 0)]), none⟩

/-- **C8** (counterexample): a backup whose copied index holds one key
whose record is already expired at backup time gets `entry_count = 1`,
while the number of live (non-expired) entries recorded in the copied
index is `0`. -/
theorem C8_counterexample :
    (createFullBackup c8Src "" 5).2.entryCount = 1 ∧
    specLiveEntryCount (createFullBackup c8Src "" 5).1 5 = 0 := by decide

theorem countEntriesFromIndex_elim (ib : List Nat) :
    (match countEntriesFromIndex ib with
      | Except.ok n => n
      | Except.error _ => 0) =
      match deserializeIndex ib with
      | some m => m.length
      | none => 0 := by
  unfold countEntriesFromIndex
  cases deserializeIndex ib <;> rfl

/-- **C8** (amended): `entry_count` is the total number of keys in the
copied index file — expired entries included — and `0` when the index file
is absent or does not decode. -/
theorem C8_entry_count_is_key_count (src : SourceDir) (desc : String) (ts : Nat) :
    (createFullBackup src desc ts).2.entryCount =
      match src.index with
      | some ib =>
        match deserializeIndex ib with
        | some m => m.length
        | none => 0
      | none => 0 := by
  obtain ⟨d0, i0, w0⟩ := src
  cases d0 <;> cases i0 <;> cases w0 <;>
    simp [createFullBackup, fileLookup, countEntriesFromIndex_elim]

/-! ### C9: the next-append offset tracks the data-file size -/

theorem compactLoop_sizes (s : DiskState) (now : Nat) :
    ∀ (l : List (K × Nat)) (td : List Nat) (ni : List (K × Nat)) (no : Nat),
      (compactLoop s now l td ni no).1.length =
        td.length + ((survivorsOf s now l).map
          (fun e => 4 + (serializeEntry e).length)).sum ∧
      (compactLoop s now l td ni no).2.2 =
        no + ((survivorsOf s now l).map
          (fun e => 4 + (serializeEntry e).length)).sum := by
  intro l
  induction l with
  | nil => intro td ni no; simp [compactLoop, survivorsOf]
  | cons kv rest ih =>
    intro td ni no
    obtain ⟨k, off⟩ := kv
    cases hr : readEntry s off with
    | error err =>
      have hs : survivorsOf s now ((k, off) :: rest) = survivorsOf s now rest := by
        simp [survivorsOf, List.filterMap_cons, hr]
      simp only [compactLoop, hr, hs]
      exact ih td ni no
    | ok e =>
      by_cases he : isExpired now e = true
      · have hs : survivorsOf s now ((k, off) :: rest) = survivorsOf s now rest := by
          simp [survivorsOf, List.filterMap_cons, hr, he]
        simp only [compactLoop, hr, hs]
        rw [if_pos he]
        exact ih td ni no
      · have hs : survivorsOf s now ((k, off) :: rest) = e :: survivorsOf s now rest := by
          simp [survivorsOf, List.filterMap_cons, hr, he]
        simp only [compactLoop, hr, hs]
        rw [if_neg he]
        have h1 := ih (td ++ le32 (serializeEntry e).length ++ serializeEntry e)
          (idxSet ni k no) (no + (4 + (serializeEntry e).length))
        constructor
        · rw [h1.1]
          simp [length_le32]
          omega
        · rw [h1.2]
          simp
          omega

theorem batchLoop_offset_inv (now : Nat) (wo : Nat → WriteOutcome) :
    ∀ (l : List Entry) (i : Nat) (s : DiskState),
      s.nextOffset = s.dataFile.length →
      (batchLoop now wo l i s).1.isOk = true →
      ((batchLoop now wo l i s).2).nextOffset =
        ((batchLoop now wo l i s).2).dataFile.length := by
  intro l
  induction l with
  | nil => intro i s h _; exact h
  | cons e rest ih =>
    intro i s h hok
    cases hwo : wo i with
    | ok =>
      unfold batchLoop at hok ⊢
      rw [hwo] at hok ⊢
      simp only [writeEntry] at hok ⊢
      refine ih _ _ ?_ hok
      simp only [List.length_append, length_le32]
      omega
    | failHeader =>
      unfold batchLoop at hok
      rw [hwo] at hok
      simp [writeEntry, Except.isOk, Except.toBool] at hok
    | failPayload =>
      unfold batchLoop at hok
      rw [hwo] at hok
      simp [writeEntry, Except.isOk, Except.toBool] at hok

/-- **C9** (amended): a successful `Set` / `SetWithTTL` / `BatchSet`
preserves `nextOffset = |data.db|`, and `Delete`, `Clear` and `Compact`
preserve it unconditionally; opening a store establishes it whenever the
on-disk index file is non-empty or the data file is empty (when the index
file is empty `loadIndex` returns early leaving `nextOffset = 0` whatever
the data file's size). -/
theorem C9_offset_tracks_file_size (db ib : List Nat) (s0 s : DiskState)
    (now : Nat) (k : K) (v : List Nat) (d : Nat) (entries : List Entry)
    (w : WriteOutcome) (wo : Nat → WriteOutcome)
    (hopen : openStore db ib = .ok s0)
    (hne : ib = [] → db = [])
    (hinv : s.nextOffset = s.dataFile.length) :
    s0.nextOffset = s0.dataFile.length ∧
    ((Set s now k v w).1.isOk = true →
      (Set s now k v w).2.nextOffset = (Set s now k v w).2.dataFile.length) ∧
    ((SetWithTTL s now k v d w).1.isOk = true →
      (SetWithTTL s now k v d w).2.nextOffset =
        (SetWithTTL s now k v d w).2.dataFile.length) ∧
    ((BatchSet s now entries wo).1.isOk = true →
      (BatchSet s now entries wo).2.nextOffset =
        (BatchSet s now entries wo).2.dataFile.length) ∧
    (Delete s k).2.nextOffset = (Delete s k).2.dataFile.length ∧
    (Clear s).2.nextOffset = (Clear s).2.dataFile.length ∧
    (Compact s now).2.nextOffset = (Compact s now).2.dataFile.length := by
  refine ⟨?_, ?_, ?_, ?_, ?_, ?_, ?_⟩
  · -- open
    by_cases hib : ib.length = 0
    · have hdb : db = [] := hne (List.length_eq_zero.mp hib)
      unfold openStore at hopen
      rw [if_pos hib] at hopen
      cases hopen
      simp [hdb]
    · unfold openStore at hopen
      rw [if_neg hib] at hopen
      cases hdec : deserializeIndex ib with
      | none => rw [hdec] at hopen; cases hopen
      | some m => rw [hdec] at hopen; cases hopen; rfl
  · -- Set
    intro hok
    unfold Set at hok ⊢
    by_cases hc : s.closed = true
    · rw [if_pos hc] at hok
      simp [Except.isOk, Except.toBool] at hok
    · rw [if_neg hc] at hok ⊢
      cases w with
      | ok =>
        simp only [writeEntry, saveIndex]
        simp only [List.length_append, length_le32]
        omega
      | failHeader => simp [writeEntry, Except.isOk, Except.toBool] at hok
      | failPayload => simp [writeEntry, Except.isOk, Except.toBool] at hok
  · -- SetWithTTL
    intro hok
    unfold SetWithTTL at hok ⊢
    by_cases hc : s.closed = true
    · rw [if_pos hc] at hok
      simp [Except.isOk, Except.toBool] at hok
    · rw [if_neg hc] at hok ⊢
      cases w with
      | ok =>
        simp only [writeEntry, saveIndex]
        simp only [List.length_append, length_le32]
        omega
      | failHeader => simp [writeEntry, Except.isOk, Except.toBool] at hok
      | failPayload => simp [writeEntry, Except.isOk, Except.toBool] at hok
  · -- BatchSet
    intro hok
    unfold BatchSet at hok ⊢
    by_cases hc : s.closed = true
    · rw [if_pos hc] at hok
      simp [Except.isOk, Except.toBool] at hok
    · rw [if_neg hc] at hok ⊢
      have h := batchLoop_offset_inv now wo entries 0 s hinv
      cases hbl : batchLoop now wo entries 0 s with
      | mk r s' =>
        rw [hbl] at hok h
        cases r with
        | error err => simp [Except.isOk, Except.toBool] at hok
        | ok u =>
          simpa [saveIndex] using h (by simp [Except.isOk, Except.toBool])
  · -- Delete
    unfold Delete
    by_cases hc : s.closed <;> simp [hc, saveIndex, hinv]
  · -- Clear
    unfold Clear
    by_cases hc : s.closed <;> simp [hc, saveIndex, hinv]
  · -- Compact
    unfold Compact
    by_cases hc : s.closed
    · simp [hc, hinv]
    · simp only [hc, if_false, Bool.false_eq_true]
      have h := compactLoop_sizes s now s.index [] [] 0
      simp only [List.length_nil, Nat.zero_add] at h
      simp [h.1, h.2]

def c9State : DiskState :=
  { index := [], dataFile := [1, 2, 3], indexFile := [], nextOffset := 0,
    closed := false }

/-- **C9** (counterexample): opening a data directory whose `data.db`
holds 3 bytes while `index.db` is a zero-byte file succeeds with
`nextOffset = 0`, which differs from the data file's size — `loadIndex`
returns early on an empty index file without setting the offset. -/
theorem C9_counterexample :
    openStore [1, 2, 3] [] = .ok c9State ∧
    c9State.nextOffset ≠ c9State.dataFile.length := by decide

def emptyOpenState : DiskState :=
  { index := [], dataFile := [], indexFile := [], nextOffset := 0,
    closed := false }

/-- Witness for the amended C9 at the freshly opened empty store. -/
theorem C9_offset_tracks_file_size_w :
    (openStore [] [] = .ok emptyOpenState ∧ emptyOpenState.nextOffset = emptyOpenState.dataFile.length) ∧
    (emptyOpenState.nextOffset = emptyOpenState.dataFile.length ∧
      ((Set emptyOpenState 0 [107] [1] .ok).1.isOk = true →
        (Set emptyOpenState 0 [107] [1] .ok).2.nextOffset =
          (Set emptyOpenState 0 [107] [1] .ok).2.dataFile.length) ∧
      ((SetWithTTL emptyOpenState 0 [107] [1] 5 .ok).1.isOk = true →
        (SetWithTTL emptyOpenState 0 [107] [1] 5 .ok).2.nextOffset =
          (SetWithTTL emptyOpenState 0 [107] [1] 5 .ok).2.dataFile.length) ∧
      ((BatchSet emptyOpenState 0 [c2Entry] woAllOk).1.isOk = true →
        (BatchSet emptyOpenState 0 [c2Entry] woAllOk).2.nextOffset =
          (BatchSet emptyOpenState 0 [c2Entry] woAllOk).2.dataFile.length) ∧
      (Delete emptyOpenState [107]).2.nextOffset =
        (Delete emptyOpenState [107]).2.dataFile.length ∧
      (Clear emptyOpenState).2.nextOffset = (Clear emptyOpenState).2.dataFile.length ∧
      (Compact emptyOpenState 0).2.nextOffset =
        (Compact emptyOpenState 0).2.dataFile.length) :=
  ⟨⟨rfl, rfl⟩,
    C9_offset_tracks_file_size [] [] emptyOpenState emptyOpenState 0 [107] [1] 5
      [c2Entry] .ok woAllOk rfl (fun _ => rfl) rfl⟩

/-! ### C4: lazy expiry semantics of `Get` -/

/-- **C4**: (general part) on a key whose indexed record reads back
expired, `Get` reports `Expired`, removes the key from the in-memory
index, persists the pruned index to disk, and a subsequent `Exists`
returns `false`; (P10 part) immediately after `SetWithTTL k v d` at time
`t0`, a `Get` at any `t1` with `t1 - t0 ≤ d` returns `v`. -/
theorem C4_expiry_semantics (s : DiskState) (now : Nat) (k : K) (off : Nat)
    (e : Entry) (s2 : DiskState) (t0 t1 : Nat) (k2 : K) (v2 : List Nat) (d : Nat)
    (hc : s.closed = false)
    (hl : idxLookup s.index k = some off)
    (hr : readEntry s off = .ok e)
    (he : isExpired now e = true)
    (hc2 : s2.closed = false)
    (hinv2 : s2.nextOffset = s2.dataFile.length)
    (hsz2 : (serializeEntry ⟨k2, v2, t0, some d⟩).length < 2 ^ 32)
    (ht : t1 - t0 ≤ d) :
    (Get s now k).1 = .error .expired ∧
    (Get s now k).2.index = idxDelete s.index k ∧
    (Get s now k).2.indexFile = serializeIndex (idxDelete s.index k) ∧
    (ExistsKey (Get s now k).2 now k).1 = .ok false ∧
    (Get (SetWithTTL s2 t0 k2 v2 d .ok).2 t1 k2).1 = .ok v2 := by
  have hget : Get s now k =
      (.error .expired, saveIndex { s with index := idxDelete s.index k }) := by
    unfold Get
    simp [hc, hl, hr, he]
  refine ⟨by rw [hget], by rw [hget]; rfl, by rw [hget]; rfl, ?_, ?_⟩
  · rw [hget]
    unfold ExistsKey
    simp [saveIndex, hc, idxLookup_idxDelete_self]
  · have hset : (SetWithTTL s2 t0 k2 v2 d .ok).2 =
        saveIndex
          { s2 with
            dataFile := s2.dataFile ++
              le32 (serializeEntry ⟨k2, v2, t0, some d⟩).length ++
              serializeEntry ⟨k2, v2, t0, some d⟩,
            nextOffset := s2.nextOffset +
              (4 + (serializeEntry ⟨k2, v2, t0, some d⟩).length),
            index := idxSet s2.index k2 s2.nextOffset } := by
      unfold SetWithTTL
      simp [hc2, writeEntry, saveIndex]
    rw [hset]
    unfold Get
    have hlook : idxLookup (idxSet s2.index k2 s2.nextOffset) k2 = some s2.nextOffset :=
      idxLookup_idxSet_self _ _ _
    have hread : readEntryBytes
        (s2.dataFile ++ (le32 (serializeEntry ⟨k2, v2, t0, some d⟩).length ++
          serializeEntry ⟨k2, v2, t0, some d⟩)) s2.nextOffset = .ok ⟨k2, v2, t0, some d⟩ := by
      rw [← List.append_assoc, hinv2]
      exact readEntryBytes_append s2.dataFile ⟨k2, v2, t0, some d⟩ hsz2
    have hexp : isExpired t1 (⟨k2, v2, t0, some d⟩ : Entry) = false := by
      simp [isExpired]
      omega
    simp [saveIndex, hc2, readEntry, hlook, hread, hexp]

def c4Store : DiskState :=
  { index := [], dataFile := [], indexFile := serializeIndex [],
    nextOffset := 0, closed := false }

/-- Witness for C4: the expired-get part at the one-record store, the
fresh-set part at an empty store with TTL 5. -/
theorem C4_expiry_semantics_w :
    (c10State.closed = false ∧ idxLookup c10State.index [107] = some 0 ∧
      readEntry c10State 0 = .ok c10Entry ∧ isExpired 5 c10Entry = true ∧
      c4Store.closed = false ∧ c4Store.nextOffset = c4Store.dataFile.length ∧
      (serializeEntry ⟨[107], [1], 0, some 5⟩).length < 2 ^ 32 ∧ 3 - 0 ≤ 5) ∧
    ((Get c10State 5 [107]).1 = .error .expired ∧
      (Get c10State 5 [107]).2.index = idxDelete c10State.index [107] ∧
      (Get c10State 5 [107]).2.indexFile = serializeIndex (idxDelete c10State.index [107]) ∧
      (ExistsKey (Get c10State 5 [107]).2 5 [107]).1 = .ok false ∧
      (Get (SetWithTTL c4Store 0 [107] [1] 5 .ok).2 3 [107]).1 = .ok [1]) :=
  ⟨⟨rfl, by decide, by decide, by decide, rfl, rfl, by decide, by decide⟩,
    C4_expiry_semantics c10State 5 [107] 0 c10Entry c4Store 0 3 [107] [1] 5
      rfl (by decide) (by decide) (by decide) rfl rfl (by decide) (by decide)⟩

/-! ### C3: compaction preserves the live set -/

theorem idxLookup_eq_none_iff (m : List (K × Nat)) (k : K) :
    idxLookup m k = none ↔ k ∉ m.map Prod.fst := by
  constructor
  · intro h hmem
    induction m with
    | nil => simp at hmem
    | cons kv rest ih =>
      obtain ⟨k1, v1⟩ := kv
      by_cases hk : k1 = k
      · simp [idxLookup, hk] at h
      · simp only [idxLookup, hk, if_false] at h
        simp only [List.map_cons, List.mem_cons] at hmem
        rcases hmem with h1 | h2
        · exact hk h1.symm
        · exact ih h h2
  · exact idxLookup_eq_none_of_not_mem m k

theorem idxSet_not_mem (m : List (K × Nat)) (k : K) (v : Nat)
    (h : k ∉ m.map Prod.fst) : idxSet m k v = m ++ [(k, v)] := by
  induction m with
  | nil => rfl
  | cons kv rest ih =>
    obtain ⟨k1, v1⟩ := kv
    simp only [List.map_cons, List.mem_cons] at h
    push_neg at h
    have hk : ¬(k1 = k) := by
      intro he
      exact h.1 he.symm
    simp [idxSet, hk, ih h.2]

theorem idxSet_nodup (m : List (K × Nat)) (k : K) (v : Nat)
    (hnd : (m.map Prod.fst).Nodup) (h : k ∉ m.map Prod.fst) :
    ((idxSet m k v).map Prod.fst).Nodup := by
  rw [idxSet_not_mem m k v h]
  simp only [List.map_append, List.map_cons, List.map_nil]
  rw [List.nodup_append]
  refine ⟨hnd, List.nodup_singleton _, ?_⟩
  intro a ha hb
  simp only [List.mem_singleton] at hb
  subst hb
  exact h ha

/-- The invariant of the `Compact` copy loop: the temp data file only
grows, processed keys end up either absent (unreadable or expired record)
or pointing at a complete frame of their entry inside the temp file, and
untouched keys keep their accumulator binding. -/
theorem compactLoop_spec (s : DiskState) (now : Nat) :
    ∀ (l : List (K × Nat)) (td : List Nat) (ni : List (K × Nat)) (no : Nat)
      (td2 : List Nat) (ni2 : List (K × Nat)) (no2 : Nat),
      compactLoop s now l td ni no = (td2, ni2, no2) →
      (l.map Prod.fst).Nodup →
      td.length = no →
      (∀ k, k ∈ l.map Prod.fst → idxLookup ni k = none) →
      (∃ ext, td2 = td ++ ext) ∧
      (∀ k, k ∉ l.map Prod.fst → idxLookup ni2 k = idxLookup ni k) ∧
      (∀ k off, (k, off) ∈ l →
        match readEntry s off with
        | .ok e =>
          if isExpired now e = true then idxLookup ni2 k = none
          else ∃ o2 pre rest2, idxLookup ni2 k = some o2 ∧
            td2 = pre ++ le32 (serializeEntry e).length ++ serializeEntry e ++ rest2 ∧
            pre.length = o2
        | .error _ => idxLookup ni2 k = none) ∧
      ((ni.map Prod.fst).Nodup → (ni2.map Prod.fst).Nodup) := by
  intro l
  induction l with
  | nil =>
    intro td ni no td2 ni2 no2 heq _ _ _
    simp only [compactLoop] at heq
    cases heq
    refine ⟨⟨[], (List.append_nil td).symm⟩, fun k _ => rfl, ?_, fun h => h⟩
    intro k off hmem
    simp at hmem
  | cons kv rest ih =>
    intro td ni no td2 ni2 no2 heq hnd hlen hacc
    obtain ⟨k0, off0⟩ := kv
    simp only [List.map_cons, List.nodup_cons] at hnd
    have hacc0 : idxLookup ni k0 = none := hacc k0 (by simp)
    have haccr : ∀ k, k ∈ rest.map Prod.fst → idxLookup ni k = none := by
      intro k hk
      exact hacc k (by simp [hk])
    cases hre : readEntry s off0 with
    | error err =>
      simp only [compactLoop, hre] at heq
      have hspec := ih td ni no td2 ni2 no2 heq hnd.2 hlen haccr
      refine ⟨hspec.1, ?_, ?_, hspec.2.2.2⟩
      · intro k hk
        exact hspec.2.1 k (fun hm => hk (by simp [hm]))
      · intro k off hmem
        rcases List.mem_cons.mp hmem with h1 | h2
        · rw [Prod.mk.injEq] at h1
          obtain ⟨rfl, rfl⟩ := h1
          simp only [hre]
          rw [hspec.2.1 k hnd.1, hacc0]
        · exact hspec.2.2.1 k off h2
    | ok e =>
      by_cases hexp : isExpired now e = true
      · simp only [compactLoop, hre] at heq
        rw [if_pos hexp] at heq
        have hspec := ih td ni no td2 ni2 no2 heq hnd.2 hlen haccr
        refine ⟨hspec.1, ?_, ?_, hspec.2.2.2⟩
        · intro k hk
          exact hspec.2.1 k (fun hm => hk (by simp [hm]))
        · intro k off hmem
          rcases List.mem_cons.mp hmem with h1 | h2
          · rw [Prod.mk.injEq] at h1
            obtain ⟨rfl, rfl⟩ := h1
            simp only [hre]
            rw [if_pos hexp]
            rw [hspec.2.1 k hnd.1, hacc0]
          · exact hspec.2.2.1 k off h2
      · simp only [compactLoop, hre] at heq
        rw [if_neg hexp] at heq
        have hlen' : (td ++ le32 (serializeEntry e).length ++ serializeEntry e).length
            = no + (4 + (serializeEntry e).length) := by
          simp [length_le32]
          omega
        have haccr' : ∀ k, k ∈ rest.map Prod.fst →
            idxLookup (idxSet ni k0 no) k = none := by
          intro k hk
          have hkne : k ≠ k0 := by
            intro he
            exact hnd.1 (he ▸ hk)
          rw [idxLookup_idxSet_ne ni k0 k no hkne]
          exact haccr k hk
        have hspec := ih _ _ _ td2 ni2 no2 heq hnd.2 hlen' haccr'
        obtain ⟨⟨ext, hext⟩, hframe, hmatch, hnodup⟩ := hspec
        refine ⟨?_, ?_, ?_, ?_⟩
        · refine ⟨le32 (serializeEntry e).length ++ serializeEntry e ++ ext, ?_⟩
          rw [hext]
          simp [List.append_assoc]
        · intro k hk
          have hkr : k ∉ rest.map Prod.fst := fun hm => hk (by simp [hm])
          have hkne : k ≠ k0 := by
            intro he
            exact hk (by simp [he])
          rw [hframe k hkr, idxLookup_idxSet_ne ni k0 k no hkne]
        · intro k off hmem
          rcases List.mem_cons.mp hmem with h1 | h2
          · rw [Prod.mk.injEq] at h1
            obtain ⟨rfl, rfl⟩ := h1
            simp only [hre]
            rw [if_neg hexp]
            refine ⟨no, td, ext, ?_, ?_, hlen⟩
            · rw [hframe k hnd.1, idxLookup_idxSet_self]
            · rw [hext]
          · exact hmatch k off h2
        · intro hni
          apply hnodup
          exact idxSet_nodup ni k0 no hni ((idxLookup_eq_none_iff ni k0).mp hacc0)

/-- On an open store with a duplicate-free index, a key is listed by
`Keys` exactly when `Get` observes a value for it. -/
theorem mem_keysOf_iff (s : DiskState) (now : Nat) (k : K)
    (hc : s.closed = false) (hnd : (s.index.map Prod.fst).Nodup) :
    k ∈ keysOf s now ↔ ∃ v, (Get s now k).1 = .ok v := by
  constructor
  · intro hmem
    unfold keysOf at hmem
    rcases List.mem_map.mp hmem with ⟨kv, hkv, hfst⟩
    obtain ⟨k1, off⟩ := kv
    rcases List.mem_filter.mp hkv with ⟨hmem2, hpred⟩
    cases hfst
    cases hre : readEntry s off with
    | error err => rw [hre] at hpred; simp at hpred
    | ok e =>
      rw [hre] at hpred
      simp only [Bool.not_eq_true'] at hpred
      have hlook : idxLookup s.index k1 = some off := mem_idxLookup _ _ _ hnd hmem2
      refine ⟨e.value, ?_⟩
      unfold Get
      simp [hc, hlook, hre, hpred]
  · intro hv
    obtain ⟨v, hv⟩ := hv
    unfold Get at hv
    rw [if_neg (by rw [hc]; exact Bool.false_ne_true)] at hv
    cases hlook : idxLookup s.index k with
    | none => simp [hlook] at hv
    | some off =>
      simp only [hlook] at hv
      cases hre : readEntry s off with
      | error err => simp [hre] at hv
      | ok e =>
        simp only [hre] at hv
        by_cases hexp : isExpired now e = true
        · rw [if_pos hexp] at hv; simp at hv
        · unfold keysOf
          refine List.mem_map.mpr ⟨(k, off), List.mem_filter.mpr ⟨idxLookup_mem _ _ _ hlook, ?_⟩, rfl⟩
          simp only [hre]
          simp [hexp]

/-- **C3**: on an open store, `compact()` succeeds, preserves the set of
`(key, value)` pairs observable via `get`, preserves the set of keys
listed by `keys`, and shrinks the data file to exactly the sum of
`4 + payload-length` over the surviving records.  (The size hypothesis
says each survivor's payload fits the 4-byte `uint32` framing.) -/
theorem C3_compact_preserves_live_set (s : DiskState) (now : Nat)
    (hc : s.closed = false)
    (hnd : (s.index.map Prod.fst).Nodup)
    (hsz : ∀ e ∈ survivorEntries s now, (serializeEntry e).length < 2 ^ 32) :
    (Compact s now).1 = .ok () ∧
    (∀ k v, ((Get (Compact s now).2 now k).1 = .ok v ↔ (Get s now k).1 = .ok v)) ∧
    (∀ k, k ∈ keysOf (Compact s now).2 now ↔ k ∈ keysOf s now) ∧
    (Compact s now).2.dataFile.length =
      ((survivorEntries s now).map (fun e => 4 + (serializeEntry e).length)).sum := by
  have hcomp : Compact s now =
      (.ok (),
        { index := (compactLoop s now s.index [] [] 0).2.1,
          dataFile := (compactLoop s now s.index [] [] 0).1,
          indexFile := serializeIndex (compactLoop s now s.index [] [] 0).2.1,
          nextOffset := (compactLoop s now s.index [] [] 0).2.2,
          closed := false }) := by
    unfold Compact
    rw [if_neg (by rw [hc]; exact Bool.false_ne_true)]
  have hspec := compactLoop_spec s now s.index [] [] 0
    (compactLoop s now s.index [] [] 0).1
    (compactLoop s now s.index [] [] 0).2.1
    (compactLoop s now s.index [] [] 0).2.2
    rfl hnd rfl (fun k _ => rfl)
  obtain ⟨-, hframe, hmatch, hnodup⟩ := hspec
  have hnodup2 := hnodup List.nodup_nil
  have hgetiff : ∀ k v, ((Get (Compact s now).2 now k).1 = .ok v ↔ (Get s now k).1 = .ok v) := by
    intro k v
    cases hlook : idxLookup s.index k with
    | none =>
      have hnotmem := (idxLookup_eq_none_iff s.index k).mp hlook
      have hlook2 : idxLookup (compactLoop s now s.index [] [] 0).2.1 k = none :=
        hframe k hnotmem
      rw [hcomp]
      unfold Get
      simp [hc, hlook, hlook2]
    | some off =>
      have hmem := idxLookup_mem _ _ _ hlook
      have hm := hmatch k off hmem
      cases hre : readEntry s off with
      | error err =>
        simp only [hre] at hm
        rw [hcomp]
        unfold Get
        simp [hc, hlook, hm, hre]
      | ok e =>
        simp only [hre] at hm
        by_cases hexp : isExpired now e = true
        · rw [if_pos hexp] at hm
          rw [hcomp]
          unfold Get
          simp [hc, hlook, hm, hre, hexp]
        · rw [if_neg hexp] at hm
          obtain ⟨o2, pre, rest2, hlook2, hfile, hpre⟩ := hm
          have hes : e ∈ survivorEntries s now := by
            unfold survivorEntries survivorsOf
            refine List.mem_filterMap.mpr ⟨(k, off), hmem, ?_⟩
            simp only [hre]
            simp [hexp]
          have hSclosed : (Compact s now).2.closed = false := by rw [hcomp]
          have hSindex : (Compact s now).2.index
              = (compactLoop s now s.index [] [] 0).2.1 := by rw [hcomp]
          have hSdata : (Compact s now).2.dataFile
              = (compactLoop s now s.index [] [] 0).1 := by rw [hcomp]
          have hread2 : readEntry (Compact s now).2 o2 = .ok e := by
            unfold readEntry
            rw [hSclosed]
            simp only [Bool.false_eq_true, if_false]
            rw [hSdata, hfile, ← hpre]
            exact readEntryBytes_frame_entry pre e rest2 (hsz e hes)
          unfold Get
          rw [hSclosed, hSindex]
          simp [hc, hlook, hlook2, hread2, hre, hexp]
  refine ⟨by rw [hcomp], hgetiff, ?_, ?_⟩
  · intro k
    have hcclosed : (Compact s now).2.closed = false := by rw [hcomp]
    have hcnodup : ((Compact s now).2.index.map Prod.fst).Nodup := by
      rw [hcomp]
      exact hnodup2
    rw [mem_keysOf_iff _ now k hcclosed hcnodup, mem_keysOf_iff s now k hc hnd]
    constructor
    · intro ⟨v, hv⟩
      exact ⟨v, (hgetiff k v).mp hv⟩
    · intro ⟨v, hv⟩
      exact ⟨v, (hgetiff k v).mpr hv⟩
  · rw [hcomp]
    have hsizes := compactLoop_sizes s now s.index [] [] 0
    simp only [List.length_nil, Nat.zero_add] at hsizes
    exact hsizes.1

def c3Entry : Entry := ⟨[107], [1], 0, none⟩

def c3Store : DiskState :=
  { index := [([107], 0)],
    dataFile := le32 (serializeEntry c3Entry).length ++ serializeEntry c3Entry,
    indexFile := serializeIndex [([107], 0)],
    nextOffset := (le32 (serializeEntry c3Entry).length ++ serializeEntry c3Entry).length,
    closed := false }

/-- Witness for C3 at a concrete one-record store. -/
theorem C3_compact_preserves_live_set_w :
    (c3Store.closed = false ∧ (c3Store.index.map Prod.fst).Nodup ∧
      ∀ e ∈ survivorEntries c3Store 0, (serializeEntry e).length < 2 ^ 32) ∧
    ((Compact c3Store 0).1 = .ok () ∧
      (∀ k v, ((Get (Compact c3Store 0).2 0 k).1 = .ok v ↔ (Get c3Store 0 k).1 = .ok v)) ∧
      (∀ k, k ∈ keysOf (Compact c3Store 0).2 0 ↔ k ∈ keysOf c3Store 0) ∧
      (Compact c3Store 0).2.dataFile.length =
        ((survivorEntries c3Store 0).map (fun e => 4 + (serializeEntry e).length)).sum) :=
  ⟨⟨rfl, by decide, by decide⟩,
    C3_compact_preserves_live_set c3Store 0 rfl (by decide) (by decide)⟩

end DBEngine
